import Mathlib

/-!
Shallow embedding of the gantt-canvas scheduling core.

Numbers: JavaScript numbers are modelled as rationals; `Math.round` is
modelled by `jround` (round half toward positive infinity, which is the
JavaScript semantics).  Records keyed by id are modelled as association
lists; JavaScript `Set` iteration order is modelled by first-occurrence
deduplication.
-/

namespace GanttSpec

/-- JavaScript Math.round: round half toward positive infinity. -/
def jround (x : ℚ) : ℤ := ⌊x + 1/2⌋

/-! Section: Data model (src/features/gantt/types/index.ts) -/

/-- Phase kind: setup, execution or cleanup. -/
inductive PhaseType
  | setup
  | execution
  | cleanup
deriving DecidableEq, Repr

/-- TaskPhase: `type`, `duration` (minutes), optional color. -/
structure TaskPhase where
  ptype : PhaseType
  duration : ℚ
  color : Option String := none
deriving DecidableEq, Repr

/-- Task status enumeration. -/
inductive TaskStatus
  | scheduled
  | inProgress
  | completed
  | blocked
deriving DecidableEq, Repr

/-- Optional constraints on a task; `fixedTime = some true` makes it immovable. -/
structure TaskConstraints where
  earliestStart : Option ℚ := none
  latestEnd : Option ℚ := none
  fixedTime : Option Bool := none
deriving DecidableEq, Repr

/-- StoredTask: a task without the derived fields. -/
structure StoredTask where
  id : String
  startTime : ℚ
  phases : List TaskPhase
  resourceId : String
  orderId : String
  name : String
  color : Option String := none
  priority : ℤ := 3
  status : TaskStatus := .scheduled
  progress : ℚ := 0
  constraints : Option TaskConstraints := none
deriving DecidableEq, Repr

/-- Task: StoredTask plus the derived `_endTime` and `_totalDuration` fields. -/
structure Task where
  id : String
  startTime : ℚ
  phases : List TaskPhase
  eEndTime : ℚ          -- source field `_endTime` (ms timestamp)
  eTotalDuration : ℚ    -- source field `_totalDuration` (minutes)
  resourceId : String
  orderId : String
  name : String
  color : Option String := none
  priority : ℤ := 3
  status : TaskStatus := .scheduled
  progress : ℚ := 0
  constraints : Option TaskConstraints := none
deriving DecidableEq, Repr

/-- Truthiness of `task.constraints?.fixedTime`. -/
def Task.isFixed (t : Task) : Bool :=
  match t.constraints with
  | some c => c.fixedTime.getD false
  | none => false

/-! Section: task-utils (calculateTotalDuration, calculateEndTime, hydrateTask) -/

/-- Sum of phase durations in minutes. -/
def calculateTotalDuration (phases : List TaskPhase) : ℚ :=
  phases.foldl (fun sum ph => sum + ph.duration) 0

/-- End time from start and phases (minutes converted to ms). -/
def calculateEndTime (startTime : ℚ) (phases : List TaskPhase) : ℚ :=
  startTime + calculateTotalDuration phases * (60 * 1000)

/-- Hydrate a stored task with the computed fields. -/
def hydrateTask (t : StoredTask) : Task :=
  { id := t.id
    startTime := t.startTime
    phases := t.phases
    eEndTime := t.startTime + calculateTotalDuration t.phases * (60 * 1000)
    eTotalDuration := calculateTotalDuration t.phases
    resourceId := t.resourceId
    orderId := t.orderId
    name := t.name
    color := t.color
    priority := t.priority
    status := t.status
    progress := t.progress
    constraints := t.constraints }

/-! Section: Data store (src/features/gantt/store/data-store.ts)

The `tasks` record is modelled as an association list from key to task,
in insertion order, with unique keys (a JavaScript object). -/

/-- The `tasks: Record<string, Task>` collection. -/
abbrev TasksMap := List (String × Task)

/-- Record read `tasks[id]`. -/
def TasksMap.lookup (m : TasksMap) (id : String) : Option Task :=
  (m.find? (fun p => p.1 == id)).map (·.2)

/-- Record write `tasks[id] = t`: replace in place or append. -/
def TasksMap.set (m : TasksMap) (id : String) (t : Task) : TasksMap :=
  if m.any (fun p => p.1 == id) then
    m.map (fun p => if p.1 == id then (p.1, t) else p)
  else
    m ++ [(id, t)]

/-- `Partial<StoredTask>` argument of updateTask (fields not relevant to any
claim, such as description and metadata, behave exactly like `name`). -/
structure TaskUpdates where
  id : Option String := none
  startTime : Option ℚ := none
  phases : Option (List TaskPhase) := none
  resourceId : Option String := none
  orderId : Option String := none
  name : Option String := none
  priority : Option ℤ := none
  status : Option TaskStatus := none
  progress : Option ℚ := none
  constraints : Option (Option TaskConstraints) := none
deriving Repr

/-- `Object.assign(task, updates)` for the fields of Partial of StoredTask. -/
def objectAssign (t : Task) (u : TaskUpdates) : Task :=
  { t with
    id := u.id.getD t.id
    startTime := u.startTime.getD t.startTime
    phases := u.phases.getD t.phases
    resourceId := u.resourceId.getD t.resourceId
    orderId := u.orderId.getD t.orderId
    name := u.name.getD t.name
    priority := u.priority.getD t.priority
    status := u.status.getD t.status
    progress := u.progress.getD t.progress
    constraints := u.constraints.getD t.constraints }

/-- Body of updateTask applied to the found task: assign the updates, then
recompute the derived fields when startTime or phases was updated. -/
def updateTaskFn (u : TaskUpdates) (t : Task) : Task :=
  let t1 := objectAssign t u
  if u.startTime.isSome || u.phases.isSome then
    let total := calculateTotalDuration t1.phases
    { t1 with eTotalDuration := total, eEndTime := t1.startTime + total * (60 * 1000) }
  else t1

/-- In-place mutation of the record entry at a key, if present. -/
def mapEntry (m : TasksMap) (taskId : String) (f : Task → Task) : TasksMap :=
  m.map (fun p => if p.1 == taskId then (p.1, f p.2) else p)

/-- data-store updateTask: mutate the entry at the key, if present. -/
def updateTask (m : TasksMap) (taskId : String) (u : TaskUpdates) : TasksMap :=
  mapEntry m taskId (updateTaskFn u)

/-- data-store setTasks: rebuild the record from scratch. -/
def setTasks (tasks : List StoredTask) : TasksMap :=
  tasks.foldl (fun m t => TasksMap.set m t.id (hydrateTask t)) []

/-- data-store addTask. -/
def addTask (m : TasksMap) (t : StoredTask) : TasksMap :=
  TasksMap.set m t.id (hydrateTask t)

/-- data-store updateTasks: sequence of single updates. -/
def updateTasks (m : TasksMap) (us : List (String × TaskUpdates)) : TasksMap :=
  us.foldl (fun acc p => updateTask acc p.1 p.2) m

/-- Per-task body of moveTasks. -/
def moveTaskFn (deltaTime : ℚ) (newResourceId : Option String) (t : Task) : Task :=
  if t.isFixed then t
  else
    let s := t.startTime + deltaTime
    { t with
      startTime := s
      eEndTime := s + t.eTotalDuration * (60 * 1000)
      resourceId := newResourceId.getD t.resourceId }

/-- data-store moveTasks. -/
def moveTasks (m : TasksMap) (taskIds : List String) (deltaTime : ℚ)
    (newResourceId : Option String) : TasksMap :=
  taskIds.foldl (fun acc id => mapEntry acc id (moveTaskFn deltaTime newResourceId)) m

/-! Section: UI store (viewport, selection, drag) -/

/-- Discrete zoom level. -/
inductive ZoomLevel
  | hour
  | day
  | week
  | month
deriving DecidableEq, Repr

/-- getZoomLevel: discrete level from continuous pixelsPerHour. -/
def getZoomLevel (pixelsPerHour : ℚ) : ZoomLevel :=
  if pixelsPerHour ≥ 30 then .hour
  else if pixelsPerHour ≥ 5 then .day
  else if pixelsPerHour ≥ 1 then .week
  else .month

/-- ViewportState. -/
structure ViewportState where
  scrollX : ℚ
  scrollY : ℚ
  timeOrigin : ℚ
  pixelsPerHour : ℚ
  rowHeight : ℚ
  width : ℚ
  height : ℚ
  zoomLevel : ZoomLevel
deriving DecidableEq, Repr

/-- Drag operation type. -/
inductive DragType
  | move
  | resizeStart
  | resizeEnd
  | reassign
deriving DecidableEq, Repr

/-- One entry of the dependencyViolations list. -/
structure DependencyViolation where
  dependencyId : String
  message : String
deriving DecidableEq, Repr

/-- DragState. -/
structure DragState where
  dtype : DragType      -- source field `type`
  taskId : String
  originalTask : Task
  previewStartTime : ℚ
  previewEndTime : ℚ
  previewResourceId : String
  collisions : List String
  dependencyViolations : List DependencyViolation
  startX : ℚ
  startY : ℚ
  currentX : ℚ
  currentY : ℚ
deriving DecidableEq, Repr

/-- SelectionState (Sets modelled as lists of ids). -/
structure SelectionState where
  taskIds : List String
  resourceIds : List String
  lastSelectedTaskId : Option String
deriving DecidableEq, Repr

/-- GroupingMode. -/
inductive GroupingMode
  | order
  | resourceType
  | none
deriving DecidableEq, Repr

/-- GroupingState. -/
structure GroupingState where
  mode : GroupingMode
  expandedGroups : List String
deriving DecidableEq, Repr

/-- UI store state (part of GanttUIState relevant to the verified actions). -/
structure UIState where
  viewport : ViewportState
  selection : SelectionState
  grouping : GroupingState
  drag : Option DragState
  hoveredTaskId : Option String
  sidebarWidth : ℚ
deriving DecidableEq, Repr

/-- panViewport: pan with clamping of both scroll offsets at zero. -/
def panViewport (v : ViewportState) (deltaX deltaY : ℚ) : ViewportState :=
  { v with
    scrollX := max 0 (v.scrollX + deltaX)
    scrollY := max 0 (v.scrollY + deltaY) }

/-- zoomViewport: rescale pixelsPerHour into [0.25, 120] and recompute the
scroll so the time under centerX stays put, then clamp the scroll at zero. -/
def zoomViewport (v : ViewportState) (factor centerX : ℚ) : ViewportState :=
  let oldPixelsPerHour := v.pixelsPerHour
  let newPixelsPerHour := max (1/4) (min 120 (oldPixelsPerHour * factor))
  let scrollXOffset := centerX + v.scrollX
  let timeOffset := scrollXOffset / oldPixelsPerHour
  let newScrollX := timeOffset * newPixelsPerHour - centerX
  { v with
    pixelsPerHour := newPixelsPerHour
    scrollX := max 0 newScrollX
    zoomLevel := getZoomLevel newPixelsPerHour }

/-! Section: ViewportManager coordinate transforms (engine/viewport-manager.ts) -/

/-- Milliseconds per hour. -/
def msPerHour : ℚ := 60 * 60 * 1000

/-- timeToX: timestamp to viewport x. -/
def timeToX (v : ViewportState) (timestamp : ℚ) : ℚ :=
  (timestamp - v.timeOrigin) / msPerHour * v.pixelsPerHour - v.scrollX

/-- xToTime: viewport x to timestamp. -/
def xToTime (v : ViewportState) (x : ℚ) : ℚ :=
  v.timeOrigin + (x + v.scrollX) / v.pixelsPerHour * msPerHour

/-! Section: Drag state machine (UI store actions startDrag, updateDrag, commitDrag) -/

/-- startDrag: refused when the task is absent or has fixedTime truthy;
otherwise create a fresh DragState snapshotting the task. -/
def startDrag (ui : UIState) (tasks : TasksMap) (taskId : String) (dtype : DragType)
    (startX startY : ℚ) : UIState :=
  match TasksMap.lookup tasks taskId with
  | Option.none => ui
  | some task =>
    if task.isFixed then ui
    else
      { ui with
        drag := some
          { dtype := dtype
            taskId := taskId
            originalTask := task
            previewStartTime := task.startTime
            previewEndTime := task.eEndTime
            previewResourceId := task.resourceId
            collisions := []
            dependencyViolations := []
            startX := startX
            startY := startY
            currentX := startX
            currentY := startY } }

/-- updateDrag: recompute the live preview from the pointer delta.  The
resize previews clamp the duration at 15 minutes. -/
def updateDrag (ui : UIState) (currentX currentY : ℚ) : UIState :=
  match ui.drag with
  | Option.none => ui
  | some d =>
    let deltaX := currentX - d.startX
    let hoursPerPixel := 1 / ui.viewport.pixelsPerHour
    let deltaTimeMs := deltaX * hoursPerPixel * (60 * 60 * 1000)
    let d0 := { d with currentX := currentX, currentY := currentY }
    let d1 :=
      match d0.dtype with
      | .move | .reassign =>
        { d0 with
          previewStartTime := d0.originalTask.startTime + deltaTimeMs
          previewEndTime := d0.originalTask.eEndTime + deltaTimeMs }
      | .resizeStart =>
        { d0 with
          previewStartTime :=
            min (d0.originalTask.startTime + deltaTimeMs)
              (d0.originalTask.eEndTime - 15 * 60 * 1000) }
      | .resizeEnd =>
        { d0 with
          previewEndTime :=
            max (d0.originalTask.eEndTime + deltaTimeMs)
              (d0.originalTask.startTime + 15 * 60 * 1000) }
    { ui with drag := some d1 }

/-- commitDrag: discard on dependency violations; otherwise write the preview
through data-store updateTask (move and reassign update startTime and
resourceId; the resize types rescale every phase duration by the ratio of the
new duration to the original total, rounded).  Returns the updated UI state
and tasks record.  When the task is missing from the store in the resize
branch the source throws; that branch is never reached by the theorems. -/
def commitDrag (ui : UIState) (tasks : TasksMap) : UIState × TasksMap :=
  match ui.drag with
  | Option.none => (ui, tasks)
  | some d =>
    if d.dependencyViolations.length > 0 then
      ({ ui with drag := Option.none }, tasks)
    else
      match d.dtype with
      | .move | .reassign =>
        ({ ui with drag := Option.none },
         updateTask tasks d.taskId
           { startTime := some d.previewStartTime
             resourceId := some d.previewResourceId })
      | .resizeStart | .resizeEnd =>
        match TasksMap.lookup tasks d.taskId with
        | Option.none => ({ ui with drag := Option.none }, tasks)
        | some originalTask =>
          let newDurationMs := d.previewEndTime - d.previewStartTime
          let newDurationMinutes := newDurationMs / (60 * 1000)
          let scaleFactor := newDurationMinutes / originalTask.eTotalDuration
          let newPhases := originalTask.phases.map
            (fun ph => { ph with duration := (jround (ph.duration * scaleFactor) : ℚ) })
          ({ ui with drag := Option.none },
           updateTask tasks d.taskId
             { startTime := some d.previewStartTime
               phases := some newPhases })

/-! Section: Spatial index (spatial-index.ts over the RBush rectangle tree)

The RBush tree is modelled by its load/search contract: the items it holds,
with `search` returning every item whose box intersects the query box with
inclusive bounds. -/

/-- VirtualRow. -/
structure VirtualRow where
  id : String
  resourceId : Option String
  virtualY : ℚ
  height : ℚ
  isGroupHeader : Bool := false
  groupId : Option String := none
  isCollapsed : Option Bool := none
deriving DecidableEq, Repr

/-- RBush item: one bounding box keyed by task id. -/
structure RBushItem where
  minX : ℚ
  minY : ℚ
  maxX : ℚ
  maxY : ℚ
  taskId : String
deriving DecidableEq, Repr

/-- The resource-to-row map built at the top of rebuild: rows with a truthy
resourceId, later rows overriding earlier ones. -/
def rowByResource (rows : List VirtualRow) (rid : String) : Option VirtualRow :=
  rows.foldl
    (fun acc row =>
      match row.resourceId with
      | some r => if r == "" then acc else if r == rid then some row else acc
      | Option.none => acc)
    Option.none

/-- SpatialIndex.rebuild: one box per task whose resource maps to a row. -/
def rebuild (tasks : List Task) (rows : List VirtualRow) : List RBushItem :=
  tasks.filterMap (fun t =>
    (rowByResource rows t.resourceId).map (fun row =>
      { minX := t.startTime
        minY := row.virtualY
        maxX := t.eEndTime
        maxY := row.virtualY + row.height
        taskId := t.id }))

/-- RBush box intersection (inclusive bounds). -/
def boxIntersects (it : RBushItem) (qminX qminY qmaxX qmaxY : ℚ) : Bool :=
  decide (it.minX ≤ qmaxX ∧ qminX ≤ it.maxX ∧ it.minY ≤ qmaxY ∧ qminY ≤ it.maxY)

/-- RBush search over the loaded items. -/
def searchItems (items : List RBushItem) (qminX qminY qmaxX qmaxY : ℚ) : List RBushItem :=
  items.filter (fun it => boxIntersects it qminX qminY qmaxX qmaxY)

/-- SpatialIndex.queryPoint: hit detection at a point. -/
def queryPoint (items : List RBushItem) (timestamp virtualY : ℚ) : List String :=
  (searchItems items timestamp virtualY timestamp virtualY).map (·.taskId)

/-! Section: Relational index (index-manager.ts): dependency adjacency and BFS -/

/-- Dependency type. -/
inductive DependencyType
  | FS
  | FF
  | SS
  | SF
deriving DecidableEq, Repr

/-- TaskDependency. -/
structure TaskDependency where
  id : String
  predecessorId : String
  successorId : String
  dtype : DependencyType    -- source field `type`
  lag : ℚ
deriving DecidableEq, Repr

/-- JavaScript Set built from a list: first-occurrence deduplication. -/
def jsSetFrom (l : List String) : List String :=
  l.foldl (fun acc x => if x ∈ acc then acc else acc ++ [x]) []

/-- getPredecessors: the adjacency set successorId to predecessorIds. -/
def getPredecessors (deps : List TaskDependency) (taskId : String) : List String :=
  jsSetFrom ((deps.filter (fun d => d.successorId == taskId)).map (·.predecessorId))

/-- getSuccessors: the adjacency set predecessorId to successorIds. -/
def getSuccessors (deps : List TaskDependency) (taskId : String) : List String :=
  jsSetFrom ((deps.filter (fun d => d.predecessorId == taskId)).map (·.successorId))

/-- Traversal direction of getDependencyChain. -/
inductive ChainDirection
  | predecessors
  | successors
  | both
deriving DecidableEq, Repr

/-- The ids pushed for one dequeued node: predecessors, successors, or both. -/
def chainNeighbors (deps : List TaskDependency) (dir : ChainDirection)
    (taskId : String) : List String :=
  (if dir = .predecessors ∨ dir = .both then getPredecessors deps taskId else []) ++
  (if dir = .successors ∨ dir = .both then getSuccessors deps taskId else [])

/-- Every id occurring in the dependency list. -/
def depNodes (deps : List TaskDependency) : Finset String :=
  deps.foldr (fun d acc => insert d.predecessorId (insert d.successorId acc)) ∅

/-- Every neighbor id returned by getPredecessors occurs in the dependency list. -/
lemma mem_jsSetFrom_aux (l acc : List String) (x : String) :
    x ∈ l.foldl (fun a y => if y ∈ a then a else a ++ [y]) acc ↔ x ∈ acc ∨ x ∈ l := by
  induction l generalizing acc with
  | nil => simp
  | cons y l ih =>
    simp only [List.foldl_cons, ih, List.mem_cons]
    by_cases hy : y ∈ acc
    · simp only [if_pos hy]
      constructor
      · rintro (h | h)
        · exact Or.inl h
        · exact Or.inr (Or.inr h)
      · rintro (h | h | h)
        · exact Or.inl h
        · exact Or.inl (h ▸ hy)
        · exact Or.inr h
    · simp only [if_neg hy, List.mem_append, List.mem_singleton]
      tauto

/-- Membership in a modelled JavaScript Set is membership in its source list. -/
lemma mem_jsSetFrom (l : List String) (x : String) : x ∈ jsSetFrom l ↔ x ∈ l := by
  simpa using mem_jsSetFrom_aux l [] x

/-- Both endpoints of a listed dependency are in depNodes. -/
lemma mem_depNodes_of_mem {deps : List TaskDependency} {d : TaskDependency}
    (h : d ∈ deps) : d.predecessorId ∈ depNodes deps ∧ d.successorId ∈ depNodes deps := by
  induction deps with
  | nil => cases h
  | cons e deps ih =>
    rcases List.mem_cons.mp h with rfl | h
    · simp [depNodes]
    · have := ih h
      simp only [depNodes, List.foldr_cons, Finset.mem_insert] at this ⊢
      exact ⟨Or.inr (Or.inr this.1), Or.inr (Or.inr this.2)⟩

/-- Neighbor ids of any node are ids occurring in the dependency list. -/
lemma chainNeighbors_subset (deps : List TaskDependency) (dir : ChainDirection)
    (t : String) : ∀ x ∈ chainNeighbors deps dir t, x ∈ depNodes deps := by
  intro x hx
  rcases List.mem_append.mp hx with h | h
  · split at h
    · rw [getPredecessors, mem_jsSetFrom] at h
      rcases List.mem_map.mp h with ⟨d, hd, rfl⟩
      exact (mem_depNodes_of_mem (List.mem_of_mem_filter hd)).1
    · cases h
  · split at h
    · rw [getSuccessors, mem_jsSetFrom] at h
      rcases List.mem_map.mp h with ⟨d, hd, rfl⟩
      exact (mem_depNodes_of_mem (List.mem_of_mem_filter hd)).2
    · cases h

/-- The queue loop of getDependencyChain: dequeue, skip when already visited,
otherwise mark visited and enqueue the not-yet-visited neighbors. -/
def chainBFS (deps : List TaskDependency) (dir : ChainDirection)
    (visited : Finset String) (queue : List String) : Finset String :=
  match queue with
  | [] => visited
  | current :: rest =>
    if current ∈ visited then
      chainBFS deps dir visited rest
    else
      let visited2 := insert current visited
      let pushes := (chainNeighbors deps dir current).filter (fun x => decide (x ∉ visited2))
      chainBFS deps dir visited2 (rest ++ pushes)
termination_by (((depNodes deps ∪ queue.toFinset) \ visited).card, queue.length)
decreasing_by
  · have hsub : (depNodes deps ∪ rest.toFinset) \ visited ⊆
        (depNodes deps ∪ (current :: rest).toFinset) \ visited := by
      intro x hx
      rw [Finset.mem_sdiff, Finset.mem_union] at hx ⊢
      rcases hx with ⟨h1 | h1, h2⟩
      · exact ⟨Or.inl h1, h2⟩
      · exact ⟨Or.inr (by simp [List.mem_toFinset] at h1 ⊢; exact Or.inr h1), h2⟩
    rcases lt_or_eq_of_le (Finset.card_le_card hsub) with h | h
    · exact Prod.Lex.left _ _ h
    · rw [h]
      exact Prod.Lex.right _ (Nat.lt_succ_self _)
  · apply Prod.Lex.left
    apply Finset.card_lt_card
    rw [Finset.ssubset_def]
    constructor
    · intro x hx
      rw [Finset.mem_sdiff, Finset.mem_union] at hx ⊢
      obtain ⟨h1, h2⟩ := hx
      rw [Finset.mem_insert] at h2
      push_neg at h2
      refine ⟨?_, h2.2⟩
      rcases h1 with h1 | h1
      · exact Or.inl h1
      · rw [List.mem_toFinset, List.mem_append] at h1
        rcases h1 with h1 | h1
        · exact Or.inr (by simp [List.mem_toFinset, h1])
        · exact Or.inl (chainNeighbors_subset deps dir current x (List.mem_of_mem_filter h1))
    · intro hc
      have hin : current ∈ (depNodes deps ∪ (current :: rest).toFinset) \ visited := by
        rw [Finset.mem_sdiff, Finset.mem_union]
        exact ⟨Or.inr (by simp), by assumption⟩
      have := hc hin
      rw [Finset.mem_sdiff, Finset.mem_insert] at this
      exact this.2 (Or.inl rfl)

/-- getDependencyChain: BFS from the task, then delete the origin. -/
def getDependencyChain (deps : List TaskDependency) (taskId : String)
    (dir : ChainDirection) : Finset String :=
  (chainBFS deps dir ∅ [taskId]).erase taskId

/-- One directed step of the dependency chain relation. -/
def chainStep (deps : List TaskDependency) (dir : ChainDirection) (x y : String) : Prop :=
  y ∈ chainNeighbors deps dir x

/-! Section: Bounded undo history (data-store.ts wrapped in the zundo temporal
middleware, options limit 50 and equality on tasks and dependencies)

The temporal middleware holds past and future snapshots of the tracked
store state; pastStates is kept newest first here.  A mutation records the
previous snapshot only when tasks or dependencies changed, evicting the
oldest entry at the 50 limit and clearing the redo stack; undo pops the most
recent snapshot.  The tracked state contains only the data-store fields:
viewport, selection and drag state live in the separate, untracked UI store. -/

/-- The dependencies record. -/
abbrev DepsMap := List (String × TaskDependency)

/-- Tracked data-store state (the fields the claims touch). -/
structure DataState where
  tasks : TasksMap
  dependencies : DepsMap
deriving DecidableEq, Repr

/-- History limit of the temporal store. -/
def historyLimit : ℕ := 50

/-- The temporal store: present state plus past and future snapshots. -/
structure TemporalState where
  present : DataState
  pastStates : List DataState
  futureStates : List DataState
deriving DecidableEq, Repr

/-- A store mutation through the temporal middleware: apply the action, and
record the previous snapshot unless tasks and dependencies are unchanged. -/
def temporalSet (op : DataState → DataState) (s : TemporalState) : TemporalState :=
  let prev := s.present
  let cur := op s.present
  if prev.tasks = cur.tasks ∧ prev.dependencies = cur.dependencies then
    { s with present := cur }
  else
    { present := cur
      pastStates :=
        prev :: (if s.pastStates.length ≥ historyLimit then s.pastStates.dropLast else s.pastStates)
      futureStates := [] }

/-- undo: restore the most recent snapshot; no-op on empty history. -/
def temporalUndo (s : TemporalState) : TemporalState :=
  match s.pastStates with
  | [] => s
  | p :: rest =>
    { present := p
      pastStates := rest
      futureStates := s.present :: s.futureStates }

/-- A committed move of a set of tasks, as dispatched to the data store. -/
def moveTasksCommit (taskIds : List String) (deltaTime : ℚ)
    (newResourceId : Option String) (s : TemporalState) : TemporalState :=
  temporalSet (fun ds => { ds with tasks := moveTasks ds.tasks taskIds deltaTime newResourceId }) s

/-! Section: Derived-field invariant and shared fixtures -/

/-- The derived fields of a task agree with its startTime and phases. -/
def hydratedTask (t : Task) : Prop :=
  t.eTotalDuration = calculateTotalDuration t.phases ∧
  t.eEndTime = t.startTime + t.eTotalDuration * (60 * 1000)

/-- Every phase duration is an integer number of minutes. -/
def integralPhases (t : Task) : Prop :=
  ∀ ph ∈ t.phases, ∃ n : ℤ, ph.duration = (n : ℚ)

/-- Every task in the record satisfies the derived-field invariant. -/
def allHydrated (m : TasksMap) : Prop := ∀ p ∈ m, hydratedTask p.2

/-- Example viewport at the default day zoom. -/
def vpDay : ViewportState :=
  { scrollX := 0, scrollY := 0, timeOrigin := 0, pixelsPerHour := 10,
    rowHeight := 40, width := 800, height := 600, zoomLevel := .day }

/-- Example viewport at hour zoom (60 pixels per hour). -/
def vpHour : ViewportState :=
  { scrollX := 0, scrollY := 0, timeOrigin := 0, pixelsPerHour := 60,
    rowHeight := 40, width := 800, height := 600, zoomLevel := .hour }

/-- A UI state with no active drag over a given viewport. -/
def uiFrom (v : ViewportState) : UIState :=
  { viewport := v
    selection := { taskIds := [], resourceIds := [], lastSelectedTaskId := Option.none }
    grouping := { mode := .none, expandedGroups := [] }
    drag := Option.none
    hoveredTaskId := Option.none
    sidebarWidth := 200 }

/-- The spec resize scenario task: phases setup 20, execution 100, cleanup 20. -/
def storedScenario : StoredTask :=
  { id := "t1", startTime := 0
    phases := [⟨.setup, 20, Option.none⟩, ⟨.execution, 100, Option.none⟩, ⟨.cleanup, 20, Option.none⟩]
    resourceId := "r1", orderId := "o1", name := "job" }

/-- The tasks record holding only the scenario task. -/
def tasksScenario : TasksMap := [("t1", hydrateTask storedScenario)]

/-- A ten-minute single-phase task used in counterexamples. -/
def storedShort : StoredTask :=
  { id := "t2", startTime := 0
    phases := [⟨.execution, 10, Option.none⟩]
    resourceId := "r1", orderId := "o1", name := "short" }

/-- The tasks record holding only the short task. -/
def tasksShort : TasksMap := [("t2", hydrateTask storedShort)]

/-- A fixedTime task used in refusal examples. -/
def taskFixedEx : Task :=
  hydrateTask { storedShort with id := "tf", constraints := some { fixedTime := some true } }

/-- The tasks record holding only the fixedTime task. -/
def tasksFixedEx : TasksMap := [("tf", taskFixedEx)]

/-! Section: Shared lemmas -/

/-- Reading the only key of a singleton record. -/
lemma lookup_singleton (id : String) (t : Task) :
    TasksMap.lookup [(id, t)] id = some t := by
  simp [TasksMap.lookup, List.find?]

/-- Reading back the mutated key gives the mutated task. -/
lemma lookup_mapEntry (m : TasksMap) (id : String) (f : Task → Task) :
    TasksMap.lookup (mapEntry m id f) id = (TasksMap.lookup m id).map f := by
  induction m with
  | nil => rfl
  | cons p m ih =>
    by_cases h : p.1 == id
    · simp [TasksMap.lookup, mapEntry, List.find?, h]
    · simpa [TasksMap.lookup, mapEntry, List.find?, h] using ih

/-! Section: Claim theorems -/

/-- C7: for every ViewportState whose pixelsPerHour lies within the zoom
bounds [0.25, 120] and every timestamp t, xToTime (timeToX t) = t.  Over the
rational model the round trip is exact, hence within any tolerance. -/
theorem c7_transform_roundtrip (v : ViewportState)
    (hlo : 1/4 ≤ v.pixelsPerHour) (hhi : v.pixelsPerHour ≤ 120) (t : ℚ) :
    xToTime v (timeToX v t) = t := by
  have hp : v.pixelsPerHour ≠ 0 := by
    have : (0 : ℚ) < v.pixelsPerHour := lt_of_lt_of_le (by norm_num) hlo
    exact ne_of_gt this
  have hH : msPerHour ≠ 0 := by norm_num [msPerHour]
  unfold xToTime timeToX
  field_simp
  ring

/-- Witness for C7 at a concrete valid viewport and timestamp. -/
theorem c7_transform_roundtrip_witness :
    xToTime vpDay (timeToX vpDay 12345) = 12345 :=
  c7_transform_roundtrip vpDay (by norm_num [vpDay]) (by norm_num [vpDay]) 12345

/-- C10: from a viewport with nonnegative scroll offsets, panViewport and
zoomViewport always leave both scroll offsets nonnegative, for arbitrary
deltas, zoom factors and anchors. -/
theorem c10_scroll_never_negative (v : ViewportState)
    (hx : 0 ≤ v.scrollX) (hy : 0 ≤ v.scrollY)
    (deltaX deltaY factor centerX : ℚ) :
    (0 ≤ (panViewport v deltaX deltaY).scrollX ∧
     0 ≤ (panViewport v deltaX deltaY).scrollY) ∧
    (0 ≤ (zoomViewport v factor centerX).scrollX ∧
     0 ≤ (zoomViewport v factor centerX).scrollY) := by
  refine ⟨⟨le_max_left _ _, le_max_left _ _⟩, le_max_left _ _, ?_⟩
  simpa [zoomViewport] using hy

/-- Witness for C10 at a concrete viewport, pan delta and zoom. -/
theorem c10_scroll_never_negative_witness :
    (0 ≤ (panViewport vpDay (-500) (-500)).scrollX ∧
     0 ≤ (panViewport vpDay (-500) (-500)).scrollY) ∧
    (0 ≤ (zoomViewport vpDay (1/8) 300).scrollX ∧
     0 ≤ (zoomViewport vpDay (1/8) 300).scrollY) :=
  c10_scroll_never_negative vpDay (by norm_num [vpDay]) (by norm_num [vpDay]) (-500) (-500) (1/8) 300

/-- C9: startDrag on a task with fixedTime true, or on an id absent from the
store, is refused: the UI state (hence the drag slot) is returned unchanged,
and the tasks record is not touched by startDrag at all. -/
theorem c9_fixed_or_missing_drag_refused (ui : UIState) (tasks : TasksMap)
    (taskId : String) (dtype : DragType) (startX startY : ℚ)
    (h : TasksMap.lookup tasks taskId = Option.none ∨
         ∃ task, TasksMap.lookup tasks taskId = some task ∧ task.isFixed = true) :
    startDrag ui tasks taskId dtype startX startY = ui := by
  rcases h with h | ⟨task, h, hfix⟩
  · unfold startDrag
    rw [h]
  · unfold startDrag
    rw [h]
    simp [hfix]

/-- Witness for C9: dragging a fixedTime task is refused. -/
theorem c9_fixed_or_missing_drag_refused_witness :
    startDrag (uiFrom vpDay) tasksFixedEx "tf" .move 0 0 = uiFrom vpDay :=
  c9_fixed_or_missing_drag_refused _ _ _ _ _ _
    (Or.inr ⟨taskFixedEx, lookup_singleton "tf" taskFixedEx,
      by simp [taskFixedEx, Task.isFixed, hydrateTask, storedShort]⟩)

/-- C3 counterexample: at viewport vpDay (scrollX 0, 10 px per hour), zooming
out by factor 1/2 anchored at pixel 100 forces the recomputed scroll negative,
the clamp at zero moves the content, and the timestamp under the anchor pixel
changes.  The claim as stated (anchor preservation for every factor and
anchor) is therefore false. -/
theorem c3_counterexample :
    xToTime (zoomViewport vpDay (1/2) 100) 100 ≠ xToTime vpDay 100 := by
  simp only [zoomViewport, xToTime, getZoomLevel, vpDay, msPerHour]
  norm_num [min_def, max_def]

/-- C3 amended: zoomViewport always clamps pixelsPerHour into [0.25, 120],
and it preserves the timestamp under the anchor pixel whenever the recomputed
scroll offset is nonnegative (that is, whenever the clamp of scrollX at zero
does not fire). -/
theorem c3_zoom_clamped_and_anchor_preserving (v : ViewportState) (factor centerX : ℚ) :
    (1/4 ≤ (zoomViewport v factor centerX).pixelsPerHour ∧
     (zoomViewport v factor centerX).pixelsPerHour ≤ 120) ∧
    (0 ≤ (centerX + v.scrollX) / v.pixelsPerHour *
           (max (1/4) (min 120 (v.pixelsPerHour * factor))) - centerX →
      xToTime (zoomViewport v factor centerX) centerX = xToTime v centerX) := by
  constructor
  · constructor
    · exact le_max_left _ _
    · exact max_le (by norm_num) (min_le_left _ _)
  · intro h
    have hp : max (1/4 : ℚ) (min 120 (v.pixelsPerHour * factor)) ≠ 0 := by
      have h14 : (1/4 : ℚ) ≤ max (1/4) (min 120 (v.pixelsPerHour * factor)) := le_max_left _ _
      intro hc
      rw [hc] at h14
      norm_num at h14
    simp only [zoomViewport, xToTime, max_eq_right h]
    rw [show centerX +
          ((centerX + v.scrollX) / v.pixelsPerHour *
              (max (1/4) (min 120 (v.pixelsPerHour * factor))) - centerX) =
        (centerX + v.scrollX) / v.pixelsPerHour *
          (max (1/4) (min 120 (v.pixelsPerHour * factor))) from by ring,
      mul_div_cancel_right₀ _ hp]

/-- Witness for C3 amended: zooming in anchored at pixel 100 from a scrolled
viewport keeps the recomputed scroll nonnegative and the anchor time fixed. -/
theorem c3_zoom_clamped_and_anchor_preserving_witness :
    (1/4 ≤ (zoomViewport { vpDay with scrollX := 1000 } 2 100).pixelsPerHour ∧
     (zoomViewport { vpDay with scrollX := 1000 } 2 100).pixelsPerHour ≤ 120) ∧
    xToTime (zoomViewport { vpDay with scrollX := 1000 } 2 100) 100 =
      xToTime { vpDay with scrollX := 1000 } 100 :=
  ⟨(c3_zoom_clamped_and_anchor_preserving { vpDay with scrollX := 1000 } 2 100).1,
   (c3_zoom_clamped_and_anchor_preserving { vpDay with scrollX := 1000 } 2 100).2
     (by norm_num [vpDay])⟩

/-- The phase list produced by the resize branch of commitDrag: every phase
duration multiplied by newDurationMinutes over the original total, rounded. -/
def scaledPhases (task : Task) (previewStartTime previewEndTime : ℚ) : List TaskPhase :=
  task.phases.map (fun ph =>
    { ph with duration := ((jround (ph.duration *
        ((previewEndTime - previewStartTime) / (60 * 1000) / task.eTotalDuration))) : ℚ) })

/-- C2: commitDrag for a resize drag rescales every phase duration by the
ratio of the new duration (the preview span) to the original total duration,
rounded, and moves the start to the preview start.  Instantiated at the spec
scenario (phases 20/100/20, preview span 70 minutes, result 10/50/10) by the
witness below. -/
theorem c2_resize_scales_phases (ui : UIState) (tasks : TasksMap) (d : DragState) (task : Task)
    (hdrag : ui.drag = some d)
    (hty : d.dtype = .resizeStart ∨ d.dtype = .resizeEnd)
    (hviol : d.dependencyViolations = [])
    (hlook : TasksMap.lookup tasks d.taskId = some task) :
    ∃ t2, TasksMap.lookup (commitDrag ui tasks).2 d.taskId = some t2 ∧
      t2.startTime = d.previewStartTime ∧
      t2.phases = scaledPhases task d.previewStartTime d.previewEndTime := by
  have hcommit : (commitDrag ui tasks).2 = updateTask tasks d.taskId
      { startTime := some d.previewStartTime,
        phases := some (scaledPhases task d.previewStartTime d.previewEndTime) } := by
    unfold commitDrag
    rw [hdrag]
    rcases hty with h | h <;>
      simp only [hviol, List.length_nil, gt_iff_lt, lt_self_iff_false, if_false, h, hlook,
        scaledPhases]
  refine ⟨updateTaskFn
    { startTime := some d.previewStartTime,
      phases := some (scaledPhases task d.previewStartTime d.previewEndTime) } task, ?_, ?_, ?_⟩
  · rw [hcommit, updateTask, lookup_mapEntry, hlook]
    rfl
  · simp [updateTaskFn, objectAssign]
  · simp [updateTaskFn, objectAssign]

/-- The spec resize-scenario drag state: preview span 70 minutes over the
140-minute scenario task. -/
def dragResizeEx : DragState :=
  { dtype := .resizeEnd, taskId := "t1", originalTask := hydrateTask storedScenario
    previewStartTime := 0, previewEndTime := 4200000, previewResourceId := "r1"
    collisions := [], dependencyViolations := []
    startX := 0, startY := 0, currentX := -70, currentY := 0 }

/-- UI state carrying the scenario resize drag. -/
def uiResizeEx : UIState := { uiFrom vpHour with drag := some dragResizeEx }

/-- Witness for C2: committing the 70-minute resize of the 20/100/20 task
yields phases 10/50/10 with the start at the preview start. -/
theorem c2_resize_scales_phases_witness :
    ∃ t2, TasksMap.lookup (commitDrag uiResizeEx tasksScenario).2 "t1" = some t2 ∧
      t2.startTime = 0 ∧
      t2.phases = [⟨.setup, 10, Option.none⟩, ⟨.execution, 50, Option.none⟩,
        ⟨.cleanup, 10, Option.none⟩] := by
  obtain ⟨t2, h1, h2, h3⟩ :=
    c2_resize_scales_phases uiResizeEx tasksScenario dragResizeEx (hydrateTask storedScenario)
      rfl (Or.inr rfl) rfl
      (by rw [tasksScenario]; exact lookup_singleton "t1" (hydrateTask storedScenario))
  refine ⟨t2, h1, h2, ?_⟩
  rw [h3]
  have htot : (hydrateTask storedScenario).eTotalDuration = 140 := by
    simp [hydrateTask, storedScenario, calculateTotalDuration]
    norm_num
  have hphases : (hydrateTask storedScenario).phases =
      [⟨.setup, 20, Option.none⟩, ⟨.execution, 100, Option.none⟩,
       ⟨.cleanup, 20, Option.none⟩] := by
    simp [hydrateTask, storedScenario]
  simp only [scaledPhases, htot, hphases, dragResizeEx, List.map_cons, List.map_nil]
  norm_num [jround]

/-! Section: C1: zero-movement drag commit -/

/-- Rounding fixes integers. -/
lemma jround_intCast (n : ℤ) : jround (n : ℚ) = n := by
  rw [jround, Int.floor_int_add]
  norm_num

/-- The DragState created by an accepted startDrag. -/
def freshDrag (taskId : String) (dtype : DragType) (task : Task) (startX startY : ℚ) : DragState :=
  { dtype := dtype, taskId := taskId, originalTask := task
    previewStartTime := task.startTime, previewEndTime := task.eEndTime
    previewResourceId := task.resourceId, collisions := [], dependencyViolations := []
    startX := startX, startY := startY, currentX := startX, currentY := startY }

/-- An accepted startDrag stores the fresh drag state. -/
lemma startDrag_not_fixed (ui : UIState) (tasks : TasksMap) (taskId : String)
    (dtype : DragType) (sx sy : ℚ) (task : Task)
    (hlook : TasksMap.lookup tasks taskId = some task) (hfix : task.isFixed = false) :
    startDrag ui tasks taskId dtype sx sy =
      { ui with drag := some (freshDrag taskId dtype task sx sy) } := by
  unfold startDrag
  rw [hlook]
  simp [hfix, freshDrag]

/-- commitDrag without an active drag is the identity. -/
lemma commitDrag_of_none (ui : UIState) (tasks : TasksMap) (h : ui.drag = Option.none) :
    commitDrag ui tasks = (ui, tasks) := by
  unfold commitDrag
  rw [h]

/-- updateDrag without an active drag is the identity. -/
lemma updateDrag_of_none (ui : UIState) (cx cy : ℚ) (h : ui.drag = Option.none) :
    updateDrag ui cx cy = ui := by
  unfold updateDrag
  rw [h]

/-- Scaling the phases of a hydrated task to its own span is the identity when
the durations are integers and the total is nonzero. -/
lemma scaledPhases_self (t : Task) (hhyd : hydratedTask t) (hint : integralPhases t)
    (htot : t.eTotalDuration ≠ 0) :
    scaledPhases t t.startTime t.eEndTime = t.phases := by
  unfold scaledPhases
  have hscale : (t.eEndTime - t.startTime) / (60 * 1000) / t.eTotalDuration = 1 := by
    rw [hhyd.2]
    field_simp
  simp only [hscale, mul_one]
  have hid : ∀ ph ∈ t.phases,
      ({ ph with duration := ((jround ph.duration : ℤ) : ℚ) } : TaskPhase) = ph := by
    intro ph hph
    obtain ⟨n, hn⟩ := hint ph hph
    rw [hn, jround_intCast, ← hn]
  calc t.phases.map (fun ph => { ph with duration := ((jround ph.duration : ℤ) : ℚ) })
      = t.phases.map id := List.map_congr_left hid
    _ = t.phases := List.map_id t.phases

/-- Writing back the unchanged startTime and resourceId is the identity on a
hydrated task. -/
lemma updateTaskFn_move_self (t : Task) (hhyd : hydratedTask t) :
    updateTaskFn { startTime := some t.startTime, resourceId := some t.resourceId } t = t := by
  obtain ⟨h1, h2⟩ := hhyd
  simp only [updateTaskFn, objectAssign, Option.getD_some, Option.getD_none,
    Option.isSome_some, Bool.true_or, if_true]
  rw [← h1, ← h2]

/-- Writing back the unchanged startTime and the self-scaled phases is the
identity on a hydrated task with integral phases and nonzero total. -/
lemma updateTaskFn_resize_self (t : Task) (hhyd : hydratedTask t) (hint : integralPhases t)
    (htot : t.eTotalDuration ≠ 0) :
    updateTaskFn
      { startTime := some t.startTime, phases := some (scaledPhases t t.startTime t.eEndTime) }
      t = t := by
  rw [scaledPhases_self t hhyd hint htot]
  obtain ⟨h1, h2⟩ := hhyd
  simp only [updateTaskFn, objectAssign, Option.getD_some, Option.getD_none,
    Option.isSome_some, Bool.true_or, Bool.or_true, if_true]
  rw [← h1, ← h2]

/-- The tasks record written by commitDrag for a move or reassign drag. -/
lemma commitDrag_snd_move (ui : UIState) (tasks : TasksMap) (d : DragState)
    (hdrag : ui.drag = some d)
    (hty : d.dtype = .move ∨ d.dtype = .reassign)
    (hviol : d.dependencyViolations = []) :
    (commitDrag ui tasks).2 = updateTask tasks d.taskId
      { startTime := some d.previewStartTime, resourceId := some d.previewResourceId } := by
  unfold commitDrag
  rw [hdrag]
  rcases hty with h | h <;>
    simp only [hviol, List.length_nil, gt_iff_lt, lt_self_iff_false, if_false, h]

/-- The tasks record written by commitDrag for a resize drag. -/
lemma commitDrag_snd_resize (ui : UIState) (tasks : TasksMap) (d : DragState) (task : Task)
    (hdrag : ui.drag = some d)
    (hty : d.dtype = .resizeStart ∨ d.dtype = .resizeEnd)
    (hviol : d.dependencyViolations = [])
    (hlook : TasksMap.lookup tasks d.taskId = some task) :
    (commitDrag ui tasks).2 = updateTask tasks d.taskId
      { startTime := some d.previewStartTime,
        phases := some (scaledPhases task d.previewStartTime d.previewEndTime) } := by
  unfold commitDrag
  rw [hdrag]
  rcases hty with h | h <;>
    simp only [hviol, List.length_nil, gt_iff_lt, lt_self_iff_false, if_false, h, hlook,
      scaledPhases]

/-- Committing a fresh (zero-movement) drag of any type leaves the task
unchanged, for a hydrated task with integral phases and nonzero total. -/
lemma commit_fresh (ui : UIState) (tasks : TasksMap) (taskId : String) (dtype : DragType)
    (sx sy : ℚ) (task : Task)
    (hlook : TasksMap.lookup tasks taskId = some task)
    (hhyd : hydratedTask task) (hint : integralPhases task) (htot : task.eTotalDuration ≠ 0) :
    TasksMap.lookup
      (commitDrag { ui with drag := some (freshDrag taskId dtype task sx sy) } tasks).2 taskId
      = some task := by
  cases dtype
  case move =>
    rw [commitDrag_snd_move _ tasks (freshDrag taskId .move task sx sy) rfl (Or.inl rfl) rfl]
    simp only [freshDrag]
    rw [updateTask, lookup_mapEntry, hlook]
    exact congrArg some (updateTaskFn_move_self task hhyd)
  case reassign =>
    rw [commitDrag_snd_move _ tasks (freshDrag taskId .reassign task sx sy) rfl (Or.inr rfl) rfl]
    simp only [freshDrag]
    rw [updateTask, lookup_mapEntry, hlook]
    exact congrArg some (updateTaskFn_move_self task hhyd)
  case resizeStart =>
    rw [commitDrag_snd_resize _ tasks (freshDrag taskId .resizeStart task sx sy) task rfl
      (Or.inl rfl) rfl hlook]
    simp only [freshDrag]
    rw [updateTask, lookup_mapEntry, hlook]
    exact congrArg some (updateTaskFn_resize_self task hhyd hint htot)
  case resizeEnd =>
    rw [commitDrag_snd_resize _ tasks (freshDrag taskId .resizeEnd task sx sy) task rfl
      (Or.inr rfl) rfl hlook]
    simp only [freshDrag]
    rw [updateTask, lookup_mapEntry, hlook]
    exact congrArg some (updateTaskFn_resize_self task hhyd hint htot)

/-- updateDrag at the original pointer position of a fresh drag is the
identity provided the task is at least 15 minutes long. -/
lemma updateDrag_fresh_zero (ui : UIState) (taskId : String) (dtype : DragType)
    (sx sy : ℚ) (task : Task)
    (h15 : task.startTime + 15 * 60 * 1000 ≤ task.eEndTime) :
    updateDrag { ui with drag := some (freshDrag taskId dtype task sx sy) } sx sy =
      { ui with drag := some (freshDrag taskId dtype task sx sy) } := by
  have hmin : min task.startTime (task.eEndTime - 15 * 60 * 1000) = task.startTime :=
    min_eq_left (by linarith)
  have hmax : max task.eEndTime (task.startTime + 15 * 60 * 1000) = task.eEndTime :=
    max_eq_left h15
  cases dtype <;>
    simp [updateDrag, freshDrag, sub_self, zero_mul, add_zero, hmin, hmax]

/-- C1 counterexample: a ten-minute task, a resize-start drag started and
updated at the very same pointer position, then committed.  The 15-minute
minimum-duration clamp rewrites the preview during updateDrag, so the commit
moves startTime from 0 to -300000 ms (and stretches the task to 15 minutes)
despite zero pointer movement, refuting the claim as stated. -/
theorem c1_counterexample :
    (TasksMap.lookup
        (commitDrag
          (updateDrag (startDrag (uiFrom vpDay) tasksShort "t2" .resizeStart 0 0) 0 0)
          tasksShort).2 "t2").map Task.startTime = some (-300000) ∧
    (TasksMap.lookup tasksShort "t2").map Task.startTime = some 0 := by
  constructor
  · simp only [startDrag, updateDrag, commitDrag, uiFrom, vpDay, tasksShort, storedShort,
      hydrateTask, calculateTotalDuration, TasksMap.lookup, List.find?, List.foldl,
      Task.isFixed, updateTask, mapEntry, updateTaskFn, objectAssign, List.map,
      beq_self_eq_true, Option.getD_some, Option.getD_none, Option.isSome_some,
      List.length_nil, gt_iff_lt, lt_self_iff_false, if_false, Bool.true_or, if_true,
      Option.map_some]
    norm_num [min_def]
  · simp only [tasksShort, storedShort, hydrateTask, TasksMap.lookup, List.find?,
      beq_self_eq_true, Option.map_some]
    norm_num

/-- C1 amended: starting a drag of any type and committing with zero pointer
movement leaves the task unchanged provided the task is hydrated, its phase
durations are integer minutes and its total duration is nonzero; when an
updateDrag at the original pointer position occurs in between, the task must
additionally be at least 15 minutes long (the resize clamp minimum) and the
zoom scale positive.  Without these provisos the claim fails, as the
counterexample shows. -/
theorem c1_zero_movement_commit (ui : UIState) (tasks : TasksMap) (taskId : String)
    (dtype : DragType) (startX startY : ℚ) (task : Task)
    (hdrag : ui.drag = Option.none)
    (hlook : TasksMap.lookup tasks taskId = some task)
    (hhyd : hydratedTask task)
    (hint : integralPhases task)
    (htot : task.eTotalDuration ≠ 0) :
    TasksMap.lookup
        (commitDrag (startDrag ui tasks taskId dtype startX startY) tasks).2 taskId
      = some task ∧
    (0 < ui.viewport.pixelsPerHour → 15 ≤ task.eTotalDuration →
      TasksMap.lookup
          (commitDrag (updateDrag (startDrag ui tasks taskId dtype startX startY) startX startY)
            tasks).2 taskId
        = some task) := by
  by_cases hfix : task.isFixed = true
  · have hs : startDrag ui tasks taskId dtype startX startY = ui := by
      unfold startDrag
      rw [hlook]
      simp [hfix]
    rw [hs]
    refine ⟨?_, fun _ _ => ?_⟩
    · rw [commitDrag_of_none ui tasks hdrag]
      exact hlook
    · rw [updateDrag_of_none ui startX startY hdrag, commitDrag_of_none ui tasks hdrag]
      exact hlook
  · have hfix2 : task.isFixed = false := by
      cases h : task.isFixed
      · rfl
      · exact absurd h hfix
    rw [startDrag_not_fixed ui tasks taskId dtype startX startY task hlook hfix2]
    refine ⟨commit_fresh ui tasks taskId dtype startX startY task hlook hhyd hint htot,
      fun hpph h15 => ?_⟩
    have h15ms : task.startTime + 15 * 60 * 1000 ≤ task.eEndTime := by
      rw [hhyd.2]
      have : (15 : ℚ) * (60 * 1000) ≤ task.eTotalDuration * (60 * 1000) := by
        have := mul_le_mul_of_nonneg_right h15 (by norm_num : (0:ℚ) ≤ 60 * 1000)
        linarith
      linarith
    rw [updateDrag_fresh_zero ui taskId dtype startX startY task h15ms]
    exact commit_fresh ui tasks taskId dtype startX startY task hlook hhyd hint htot

/-- Witness for C1 amended at the 20/100/20 scenario task (total 140 minutes,
integral, at least 15 minutes) and a move drag, both without and with a
zero-movement updateDrag. -/
theorem c1_zero_movement_commit_witness :
    TasksMap.lookup
        (commitDrag (startDrag (uiFrom vpDay) tasksScenario "t1" .move 3 4) tasksScenario).2 "t1"
      = some (hydrateTask storedScenario) ∧
    TasksMap.lookup
        (commitDrag (updateDrag (startDrag (uiFrom vpDay) tasksScenario "t1" .move 3 4) 3 4)
          tasksScenario).2 "t1"
      = some (hydrateTask storedScenario) := by
  have h := c1_zero_movement_commit (uiFrom vpDay) tasksScenario "t1" .move 3 4
    (hydrateTask storedScenario) rfl
    (by rw [tasksScenario]; exact lookup_singleton "t1" (hydrateTask storedScenario))
    (by constructor <;> rfl)
    (by intro ph hph
        simp [hydrateTask, storedScenario] at hph
        rcases hph with h | h | h
        · exact ⟨20, by rw [h]; norm_num⟩
        · exact ⟨100, by rw [h]; norm_num⟩
        · exact ⟨20, by rw [h]; norm_num⟩)
    (by simp [hydrateTask, storedScenario, calculateTotalDuration]
        norm_num)
  exact ⟨h.1, h.2 (by norm_num [uiFrom, vpDay]) (by
    simp [hydrateTask, storedScenario, calculateTotalDuration]
    norm_num)⟩

/-! Section: C5: the derived fields are never stale -/

/-- Hydration establishes the invariant. -/
lemma hydratedTask_hydrate (s : StoredTask) : hydratedTask (hydrateTask s) := ⟨rfl, rfl⟩

/-- updateTaskFn preserves the invariant: either it recomputes the derived
fields, or it touched neither startTime nor phases. -/
lemma updateTaskFn_hydrated (u : TaskUpdates) (t : Task) (h : hydratedTask t) :
    hydratedTask (updateTaskFn u t) := by
  unfold updateTaskFn
  by_cases hc : (u.startTime.isSome || u.phases.isSome) = true
  · simp only [hc, if_true]
    exact ⟨rfl, rfl⟩
  · simp only [hc, if_false]
    have h1 : u.startTime = Option.none := by
      cases hs : u.startTime
      · rfl
      · rw [hs] at hc
        simp at hc
    have h2 : u.phases = Option.none := by
      cases hs : u.phases
      · rfl
      · rw [hs] at hc
        simp at hc
    unfold objectAssign
    simp only [h1, h2, Option.getD_none]
    exact ⟨h.1, h.2⟩

/-- moveTaskFn preserves the invariant: it shifts startTime and recomputes
the end from the unchanged total. -/
lemma moveTaskFn_hydrated (deltaTime : ℚ) (r : Option String) (t : Task)
    (h : hydratedTask t) : hydratedTask (moveTaskFn deltaTime r t) := by
  unfold moveTaskFn
  by_cases hf : t.isFixed = true
  · simp only [hf, if_true]
    exact h
  · simp only [hf, if_false]
    exact ⟨h.1, rfl⟩

/-- mapEntry preserves the invariant when the mutation does. -/
lemma mapEntry_hydrated (m : TasksMap) (id : String) (f : Task → Task)
    (hm : allHydrated m) (hf : ∀ t, hydratedTask t → hydratedTask (f t)) :
    allHydrated (mapEntry m id f) := by
  intro p hp
  rw [mapEntry] at hp
  rcases List.mem_map.mp hp with ⟨q, hq, hpq⟩
  by_cases h : q.1 == id
  · rw [if_pos h] at hpq
    rw [← hpq]
    exact hf q.2 (hm q hq)
  · rw [if_neg h] at hpq
    rw [← hpq]
    exact hm q hq

/-- Record write preserves the invariant when the written task satisfies it. -/
lemma set_hydrated (m : TasksMap) (id : String) (t : Task)
    (hm : allHydrated m) (ht : hydratedTask t) : allHydrated (TasksMap.set m id t) := by
  intro p hp
  rw [TasksMap.set] at hp
  split at hp
  · rcases List.mem_map.mp hp with ⟨q, hq, hpq⟩
    by_cases h : q.1 == id
    · rw [if_pos h] at hpq
      rw [← hpq]
      exact ht
    · rw [if_neg h] at hpq
      rw [← hpq]
      exact hm q hq
  · rcases List.mem_append.mp hp with h | h
    · exact hm p h
    · rcases List.mem_singleton.mp h with rfl
      exact ht

/-- setTasks builds only hydrated tasks. -/
lemma setTasks_hydrated (ts : List StoredTask) : allHydrated (setTasks ts) := by
  suffices hgen : ∀ acc : TasksMap, allHydrated acc →
      allHydrated (ts.foldl (fun m t => TasksMap.set m t.id (hydrateTask t)) acc) by
    exact hgen [] (by intro p hp; cases hp)
  induction ts with
  | nil => intro acc hacc; exact hacc
  | cons t ts ih =>
    intro acc hacc
    exact ih _ (set_hydrated acc t.id (hydrateTask t) hacc (hydratedTask_hydrate t))

/-- updateTasks preserves the invariant. -/
lemma updateTasks_hydrated (us : List (String × TaskUpdates)) (m : TasksMap)
    (hm : allHydrated m) : allHydrated (updateTasks m us) := by
  unfold updateTasks
  induction us generalizing m with
  | nil => exact hm
  | cons p us ih =>
    exact ih _ (mapEntry_hydrated m p.1 _ hm (updateTaskFn_hydrated p.2))

/-- moveTasks preserves the invariant. -/
lemma moveTasks_hydrated (ids : List String) (deltaTime : ℚ) (r : Option String)
    (m : TasksMap) (hm : allHydrated m) : allHydrated (moveTasks m ids deltaTime r) := by
  unfold moveTasks
  induction ids generalizing m with
  | nil => exact hm
  | cons id ids ih =>
    exact ih _ (mapEntry_hydrated m id _ hm (moveTaskFn_hydrated deltaTime r))

/-- commitDrag only writes through updateTask, so it preserves the invariant. -/
lemma commitDrag_hydrated (ui : UIState) (m : TasksMap) (hm : allHydrated m) :
    allHydrated (commitDrag ui m).2 := by
  unfold commitDrag
  cases hd : ui.drag
  · exact hm
  · case some d =>
    by_cases hv : d.dependencyViolations.length > 0
    · simp only [if_pos hv]
      exact hm
    · simp only [if_neg hv]
      cases d.dtype <;> (try cases hl : TasksMap.lookup m d.taskId) <;>
        first
          | exact hm
          | exact mapEntry_hydrated m d.taskId _ hm (updateTaskFn_hydrated _)

/-- C5: after every store operation, every task in the record satisfies
  totalDuration = sum of its phase durations and
  endTime = startTime + totalDuration in ms: the derived fields are never
stale, across setTasks, addTask, updateTask, updateTasks, moveTasks and a
drag commit. -/
theorem c5_derived_fields_never_stale
    (ts : List StoredTask) (m : TasksMap) (t : StoredTask) (taskId : String)
    (u : TaskUpdates) (us : List (String × TaskUpdates)) (ids : List String)
    (deltaTime : ℚ) (r : Option String) (ui : UIState)
    (hm : allHydrated m) :
    allHydrated (setTasks ts) ∧
    allHydrated (addTask m t) ∧
    allHydrated (updateTask m taskId u) ∧
    allHydrated (updateTasks m us) ∧
    allHydrated (moveTasks m ids deltaTime r) ∧
    allHydrated (commitDrag ui m).2 :=
  ⟨setTasks_hydrated ts,
   set_hydrated m t.id (hydrateTask t) hm (hydratedTask_hydrate t),
   mapEntry_hydrated m taskId _ hm (updateTaskFn_hydrated u),
   updateTasks_hydrated us m hm,
   moveTasks_hydrated ids deltaTime r m hm,
   commitDrag_hydrated ui m hm⟩

/-- Witness for C5 at a concrete store with one hydrated task and a concrete
argument for each operation. -/
theorem c5_derived_fields_never_stale_witness :
    allHydrated (setTasks [storedShort]) ∧
    allHydrated (addTask tasksScenario storedShort) ∧
    allHydrated (updateTask tasksScenario "t1" { startTime := some 60000 }) ∧
    allHydrated (updateTasks tasksScenario [("t1", { phases := some [] })]) ∧
    allHydrated (moveTasks tasksScenario ["t1"] 60000 Option.none) ∧
    allHydrated (commitDrag (uiFrom vpDay) tasksScenario).2 :=
  c5_derived_fields_never_stale [storedShort] tasksScenario storedShort "t1"
    { startTime := some 60000 } [("t1", { phases := some [] })] ["t1"] 60000 Option.none
    (uiFrom vpDay)
    (by
      intro p hp
      rcases List.mem_singleton.mp hp with rfl
      exact hydratedTask_hydrate storedScenario)

/-! Section: C6: spatial index point queries -/

/-- The box inserted by rebuild for a task whose resource maps to a row. -/
def taskBox (task : Task) (row : VirtualRow) : RBushItem :=
  { minX := task.startTime
    minY := row.virtualY
    maxX := task.eEndTime
    maxY := row.virtualY + row.height
    taskId := task.id }

/-- rebuild inserts exactly the boxes of the tasks with a mapped row. -/
lemma taskBox_mem_rebuild (tasks : List Task) (rows : List VirtualRow) (task : Task)
    (row : VirtualRow) (htask : task ∈ tasks)
    (hrow : rowByResource rows task.resourceId = some row) :
    taskBox task row ∈ rebuild tasks rows := by
  apply List.mem_filterMap.mpr
  exact ⟨task, htask, by rw [hrow]; rfl⟩

/-- C6: for every task inserted by rebuild (its resource maps to a row),
queryPoint at a point strictly inside its box lists the task id, and
queryPoint at a point strictly outside its box does not (the latter under
distinctness of the task ids, as in the id-keyed store). -/
theorem c6_spatial_point_queries (tasks : List Task) (rows : List VirtualRow)
    (task : Task) (row : VirtualRow) (t y : ℚ)
    (htask : task ∈ tasks)
    (hrow : rowByResource rows task.resourceId = some row)
    (hnodup : (tasks.map Task.id).Nodup) :
    (task.startTime < t ∧ t < task.eEndTime ∧
     row.virtualY < y ∧ y < row.virtualY + row.height →
      task.id ∈ queryPoint (rebuild tasks rows) t y) ∧
    ((t < task.startTime ∨ task.eEndTime < t ∨
      y < row.virtualY ∨ row.virtualY + row.height < y) →
      task.id ∉ queryPoint (rebuild tasks rows) t y) := by
  constructor
  · rintro ⟨h1, h2, h3, h4⟩
    unfold queryPoint searchItems
    apply List.mem_map.mpr
    refine ⟨taskBox task row, List.mem_filter.mpr ⟨taskBox_mem_rebuild tasks rows task row htask hrow, ?_⟩, rfl⟩
    unfold boxIntersects taskBox
    exact decide_eq_true ⟨le_of_lt h1, le_of_lt h2, le_of_lt h3, le_of_lt h4⟩
  · intro hout hmem
    unfold queryPoint searchItems at hmem
    rcases List.mem_map.mp hmem with ⟨it, hit, hid⟩
    rcases List.mem_filter.mp hit with ⟨hmem2, hbox⟩
    unfold rebuild at hmem2
    rcases List.mem_filterMap.mp hmem2 with ⟨task2, htask2, hmap⟩
    cases hr2 : rowByResource rows task2.resourceId with
    | none =>
      rw [hr2] at hmap
      cases hmap
    | some row2 =>
      rw [hr2] at hmap
      rw [Option.map_some'] at hmap
      injection hmap with hmap
      have hid2 : task2.id = task.id := by
        rw [← hmap] at hid
        exact hid
      have heq : task2 = task :=
        List.inj_on_of_nodup_map hnodup htask2 htask hid2
      subst heq
      rw [hrow] at hr2
      injection hr2 with hr2
      subst hr2
      rw [← hmap] at hbox
      unfold boxIntersects at hbox
      have hb := of_decide_eq_true hbox
      obtain ⟨b1, b2, b3, b4⟩ := hb
      rcases hout with h | h | h | h
      · exact absurd b1 (not_le.mpr h)
      · exact absurd b2 (not_le.mpr h)
      · exact absurd b3 (not_le.mpr h)
      · exact absurd b4 (not_le.mpr h)

/-- Row fixture used by the C6 witness. -/
def rowEx : VirtualRow :=
  { id := "row-r1", resourceId := some "r1", virtualY := 40, height := 40 }

/-- Witness for C6 at a concrete task, row and two concrete points. -/
theorem c6_spatial_point_queries_witness :
    ((hydrateTask storedScenario).id ∈
      queryPoint (rebuild [hydrateTask storedScenario] [rowEx]) 60000 60) ∧
    ((hydrateTask storedScenario).id ∉
      queryPoint (rebuild [hydrateTask storedScenario] [rowEx]) 60000 100) := by
  have hrow : rowByResource [rowEx] (hydrateTask storedScenario).resourceId = some rowEx := by
    simp [rowByResource, rowEx, hydrateTask, storedScenario]
  have h := c6_spatial_point_queries [hydrateTask storedScenario] [rowEx]
    (hydrateTask storedScenario) rowEx 60000 60 (List.mem_singleton.mpr rfl) hrow
    (by simp)
  have h2 := c6_spatial_point_queries [hydrateTask storedScenario] [rowEx]
    (hydrateTask storedScenario) rowEx 60000 100 (List.mem_singleton.mpr rfl) hrow
    (by simp)
  constructor
  · apply h.1
    refine ⟨?_, ?_, ?_, ?_⟩ <;>
      simp [hydrateTask, storedScenario, calculateTotalDuration, rowEx] <;> norm_num
  · apply h2.2
    right; right; right
    simp [rowEx]
    norm_num

/-! Section: C4: bounded undo history -/

/-- moveTasks of a single id reads back as the moved task. -/
lemma lookup_moveTasks_single (m : TasksMap) (tid : String) (d : ℚ) (r : Option String) :
    TasksMap.lookup (moveTasks m [tid] d r) tid =
      (TasksMap.lookup m tid).map (moveTaskFn d r) := by
  unfold moveTasks
  simp only [List.foldl_cons, List.foldl_nil]
  exact lookup_mapEntry m tid _

/-- A movable task really moves. -/
lemma moveTaskFn_startTime (d : ℚ) (r : Option String) (t : Task)
    (hfix : t.isFixed = false) : (moveTaskFn d r t).startTime = t.startTime + d := by
  simp [moveTaskFn, hfix]

/-- moveTaskFn does not touch the constraints. -/
lemma moveTaskFn_isFixed (d : ℚ) (r : Option String) (t : Task) :
    (moveTaskFn d r t).isFixed = t.isFixed := by
  unfold moveTaskFn
  split <;> rfl

/-- Moving an existing movable task by a nonzero delta changes the record. -/
lemma moveTasks_ne (m : TasksMap) (tid : String) (task : Task) (d : ℚ) (r : Option String)
    (hlook : TasksMap.lookup m tid = some task) (hfix : task.isFixed = false) (hd : d ≠ 0) :
    moveTasks m [tid] d r ≠ m := by
  intro hc
  have h1 := lookup_moveTasks_single m tid d r
  rw [hc, hlook, Option.map_some'] at h1
  injection h1 with h1
  have h2 := congrArg Task.startTime h1
  rw [moveTaskFn_startTime d r task hfix] at h2
  exact hd (by linarith)

/-- A committed single-task move takes the recording branch of the temporal
middleware: the previous snapshot is pushed and the redo stack cleared. -/
lemma moveTasksCommit_eq (ds : DataState) (past fut : List DataState) (tid : String)
    (task : Task) (d : ℚ)
    (hlook : TasksMap.lookup ds.tasks tid = some task)
    (hfix : task.isFixed = false) (hd : d ≠ 0) :
    moveTasksCommit [tid] d Option.none ⟨ds, past, fut⟩ =
      ⟨{ ds with tasks := moveTasks ds.tasks [tid] d Option.none },
       ds :: (if past.length ≥ historyLimit then past.dropLast else past), []⟩ := by
  unfold moveTasksCommit temporalSet
  have hne : ¬(ds.tasks = moveTasks ds.tasks [tid] d Option.none ∧
      ds.dependencies = ds.dependencies) := by
    intro hc
    exact moveTasks_ne ds.tasks tid task d Option.none hlook hfix hd hc.1.symm
  rw [if_neg hne]

/-- The history never exceeds the limit. -/
lemma temporalSet_length_le (s : TemporalState) (op : DataState → DataState)
    (h : s.pastStates.length ≤ historyLimit) :
    (temporalSet op s).pastStates.length ≤ historyLimit := by
  simp only [temporalSet]
  by_cases hc : s.present.tasks = (op s.present).tasks ∧
      s.present.dependencies = (op s.present).dependencies
  · rw [if_pos hc]
    exact h
  · rw [if_neg hc]
    simp only [List.length_cons]
    by_cases hl : s.pastStates.length ≥ historyLimit
    · rw [if_pos hl, List.length_dropLast]
      unfold historyLimit at *
      omega
    · rw [if_neg hl]
      unfold historyLimit at *
      omega

/-- Three committed moves of one task, as dispatched through the temporal
middleware. -/
def threeMoves (s0 : TemporalState) (tid : String) (d1 d2 d3 : ℚ) : TemporalState :=
  moveTasksCommit [tid] d3 Option.none
    (moveTasksCommit [tid] d2 Option.none
      (moveTasksCommit [tid] d1 Option.none s0))

/-- C4: from an empty undo history, three committed task moves followed by
three undos restore the original tracked state exactly, a fourth undo is a
no-op, and the history stays within the 50-entry limit under any committed
mutation.  The tracked temporal state contains only the data-store
collections; viewport, selection and drag state live in the separate,
untracked UI store by construction. -/
theorem c4_bounded_undo (s0 : TemporalState) (tid : String) (task : Task) (d1 d2 d3 : ℚ)
    (s : TemporalState) (op : DataState → DataState)
    (hpast : s0.pastStates = [])
    (hlook : TasksMap.lookup s0.present.tasks tid = some task)
    (hfix : task.isFixed = false)
    (hd1 : d1 ≠ 0) (hd2 : d2 ≠ 0) (hd3 : d3 ≠ 0)
    (hlen : s.pastStates.length ≤ historyLimit) :
    ((temporalUndo (temporalUndo (temporalUndo (threeMoves s0 tid d1 d2 d3)))).present
        = s0.present ∧
     temporalUndo (temporalUndo (temporalUndo (temporalUndo (threeMoves s0 tid d1 d2 d3))))
        = temporalUndo (temporalUndo (temporalUndo (threeMoves s0 tid d1 d2 d3)))) ∧
    (temporalSet op s).pastStates.length ≤ historyLimit := by
  refine ⟨?_, temporalSet_length_le s op hlen⟩
  obtain ⟨ds0, past0, fut0⟩ := s0
  simp only at hpast hlook
  subst hpast
  have hlook1 : TasksMap.lookup (moveTasks ds0.tasks [tid] d1 Option.none) tid
      = some (moveTaskFn d1 Option.none task) := by
    rw [lookup_moveTasks_single, hlook, Option.map_some']
  have hfix1 : (moveTaskFn d1 Option.none task).isFixed = false := by
    rw [moveTaskFn_isFixed]
    exact hfix
  have hlook2 : TasksMap.lookup
        (moveTasks (moveTasks ds0.tasks [tid] d1 Option.none) [tid] d2 Option.none) tid
      = some (moveTaskFn d2 Option.none (moveTaskFn d1 Option.none task)) := by
    rw [lookup_moveTasks_single, hlook1, Option.map_some']
  have hfix2 : (moveTaskFn d2 Option.none (moveTaskFn d1 Option.none task)).isFixed = false := by
    rw [moveTaskFn_isFixed]
    exact hfix1
  unfold threeMoves
  rw [moveTasksCommit_eq ds0 [] fut0 tid task d1 hlook hfix hd1]
  norm_num [historyLimit]
  rw [moveTasksCommit_eq _ _ [] tid (moveTaskFn d1 Option.none task) d2 hlook1 hfix1 hd2]
  norm_num [historyLimit]
  rw [moveTasksCommit_eq _ _ [] tid (moveTaskFn d2 Option.none (moveTaskFn d1 Option.none task))
    d3 hlook2 hfix2 hd3]
  norm_num [historyLimit]
  exact ⟨rfl, rfl⟩

/-- Witness for C4 at a concrete store holding the scenario task, three
concrete nonzero deltas and a concrete bounded history. -/
theorem c4_bounded_undo_witness :
    ((temporalUndo (temporalUndo (temporalUndo
        (threeMoves ⟨⟨tasksScenario, []⟩, [], []⟩ "t1" 60000 120000 (-60000))))).present
        = (⟨⟨tasksScenario, []⟩, [], []⟩ : TemporalState).present ∧
     temporalUndo (temporalUndo (temporalUndo (temporalUndo
        (threeMoves ⟨⟨tasksScenario, []⟩, [], []⟩ "t1" 60000 120000 (-60000)))))
        = temporalUndo (temporalUndo (temporalUndo
            (threeMoves ⟨⟨tasksScenario, []⟩, [], []⟩ "t1" 60000 120000 (-60000))))) ∧
    (temporalSet id ⟨⟨tasksScenario, []⟩, [], []⟩).pastStates.length ≤ historyLimit :=
  c4_bounded_undo ⟨⟨tasksScenario, []⟩, [], []⟩ "t1" (hydrateTask storedScenario)
    60000 120000 (-60000) ⟨⟨tasksScenario, []⟩, [], []⟩ id
    rfl
    (by exact lookup_singleton "t1" (hydrateTask storedScenario))
    rfl
    (by norm_num) (by norm_num) (by norm_num)
    (by norm_num [historyLimit])

/-! Section: C8: dependency chain BFS -/

/-- The visited set only grows. -/
lemma chainBFS_subset (deps : List TaskDependency) (dir : ChainDirection) :
    ∀ visited queue, visited ⊆ chainBFS deps dir visited queue := by
  intro visited queue
  induction visited, queue using chainBFS.induct deps dir with
  | case1 visited =>
    rw [chainBFS]
  | case2 visited current rest hc ih =>
    rw [chainBFS]
    simp only [if_pos hc]
    exact ih
  | case3 visited current rest hc visited2 pushes =>
    rename_i ih
    rw [chainBFS]
    simp only [if_neg hc]
    exact (Finset.subset_insert current visited).trans ih

/-- Every queued id ends up in the result. -/
lemma mem_chainBFS_of_mem_queue (deps : List TaskDependency) (dir : ChainDirection) :
    ∀ visited queue, ∀ x ∈ queue, x ∈ chainBFS deps dir visited queue := by
  intro visited queue
  induction visited, queue using chainBFS.induct deps dir with
  | case1 visited =>
    intro x hx
    cases hx
  | case2 visited current rest hc ih =>
    intro x hx
    rw [chainBFS]
    simp only [if_pos hc]
    rcases List.mem_cons.mp hx with rfl | hx
    · exact chainBFS_subset deps dir visited rest hc
    · exact ih x hx
  | case3 visited current rest hc visited2 pushes =>
    rename_i ih
    intro x hx
    rw [chainBFS]
    simp only [if_neg hc]
    rcases List.mem_cons.mp hx with rfl | hx
    · exact chainBFS_subset deps dir _ _ (Finset.mem_insert_self x visited)
    · exact ih x (List.mem_append.mpr (Or.inl hx))

/-- Loop invariant: every neighbor of a visited node is visited or queued. -/
def queueInv (deps : List TaskDependency) (dir : ChainDirection)
    (visited : Finset String) (queue : List String) : Prop :=
  ∀ v ∈ visited, ∀ n ∈ chainNeighbors deps dir v, n ∈ visited ∨ n ∈ queue

/-- Under the loop invariant the result is closed under taking neighbors. -/
lemma chainBFS_closed (deps : List TaskDependency) (dir : ChainDirection) :
    ∀ visited queue, queueInv deps dir visited queue →
      ∀ x ∈ chainBFS deps dir visited queue, ∀ n ∈ chainNeighbors deps dir x,
        n ∈ chainBFS deps dir visited queue := by
  intro visited queue
  induction visited, queue using chainBFS.induct deps dir with
  | case1 visited =>
    intro hinv x hx n hn
    rw [chainBFS] at hx ⊢
    rcases hinv x hx n hn with h | h
    · exact h
    · cases h
  | case2 visited current rest hc ih =>
    intro hinv
    rw [chainBFS]
    simp only [if_pos hc]
    apply ih
    intro v hv n hn
    rcases hinv v hv n hn with h | h
    · exact Or.inl h
    · rcases List.mem_cons.mp h with rfl | h
      · exact Or.inl hc
      · exact Or.inr h
  | case3 visited current rest hc visited2 pushes =>
    rename_i ih
    intro hinv
    rw [chainBFS]
    simp only [if_neg hc]
    apply ih
    intro v hv n hn
    rcases Finset.mem_insert.mp hv with rfl | hv
    · by_cases hns : n ∈ insert v visited
      · exact Or.inl hns
      · refine Or.inr (List.mem_append.mpr (Or.inr ?_))
        exact List.mem_filter.mpr ⟨hn, decide_eq_true hns⟩
    · rcases hinv v hv n hn with h | h
      · exact Or.inl (Finset.mem_insert_of_mem h)
      · rcases List.mem_cons.mp h with rfl | h
        · exact Or.inl (Finset.mem_insert_self n visited)
        · exact Or.inr (List.mem_append.mpr (Or.inl h))

/-- Soundness: starting from reachable seeds, the result only contains
reachable ids. -/
lemma chainBFS_sound (deps : List TaskDependency) (dir : ChainDirection) (t0 : String) :
    ∀ visited queue,
      (∀ v ∈ visited, Relation.ReflTransGen (chainStep deps dir) t0 v) →
      (∀ q ∈ queue, Relation.ReflTransGen (chainStep deps dir) t0 q) →
      ∀ x ∈ chainBFS deps dir visited queue,
        Relation.ReflTransGen (chainStep deps dir) t0 x := by
  intro visited queue
  induction visited, queue using chainBFS.induct deps dir with
  | case1 visited =>
    intro hv hq x hx
    rw [chainBFS] at hx
    exact hv x hx
  | case2 visited current rest hc ih =>
    intro hv hq
    rw [chainBFS]
    simp only [if_pos hc]
    exact ih hv (fun q hq2 => hq q (List.mem_cons_of_mem current hq2))
  | case3 visited current rest hc visited2 pushes =>
    rename_i ih
    intro hv hq
    rw [chainBFS]
    simp only [if_neg hc]
    apply ih
    · intro v hv2
      rcases Finset.mem_insert.mp hv2 with rfl | hv2
      · exact hq v (List.mem_cons_self v rest)
      · exact hv v hv2
    · intro q hq2
      rcases List.mem_append.mp hq2 with h | h
      · exact hq q (List.mem_cons_of_mem current h)
      · have hcur : Relation.ReflTransGen (chainStep deps dir) t0 current :=
          hq current (List.mem_cons_self current rest)
        exact hcur.tail ((List.mem_filter.mp h).1)

/-- Completeness: every reachable id is found by the search from the origin. -/
lemma chainBFS_complete (deps : List TaskDependency) (dir : ChainDirection) (t0 y : String)
    (hreach : Relation.ReflTransGen (chainStep deps dir) t0 y) :
    y ∈ chainBFS deps dir ∅ [t0] := by
  induction hreach with
  | refl => exact mem_chainBFS_of_mem_queue deps dir ∅ [t0] t0 (List.mem_singleton.mpr rfl)
  | tail hab hbc ih =>
    exact chainBFS_closed deps dir ∅ [t0]
      (fun v hv => absurd hv (Finset.not_mem_empty v)) _ ih _ hbc

/-- C8: for every dependency graph (cycles included), task id and direction,
getDependencyChain is a total function (the breadth-first loop terminates by
a well-founded measure on unvisited ids and queue length) and returns exactly
the ids transitively reachable from the origin along the requested adjacency
direction, excluding the origin itself. -/
theorem c8_dependency_chain_reachable (deps : List TaskDependency) (taskId : String)
    (dir : ChainDirection) (y : String) :
    y ∈ getDependencyChain deps taskId dir ↔
      y ≠ taskId ∧ Relation.ReflTransGen (chainStep deps dir) taskId y := by
  unfold getDependencyChain
  rw [Finset.mem_erase]
  constructor
  · rintro ⟨hne, hy⟩
    refine ⟨hne, ?_⟩
    exact chainBFS_sound deps dir taskId ∅ [taskId]
      (fun v hv => absurd hv (Finset.not_mem_empty v))
      (fun q hq => by rcases List.mem_singleton.mp hq with rfl; exact Relation.ReflTransGen.refl)
      y hy
  · rintro ⟨hne, hreach⟩
    exact ⟨hne, chainBFS_complete deps dir taskId y hreach⟩

end GanttSpec
